import Mathlib

/-!
Shallow embedding of the remirror extension-aggregation core.

The repository's sources under scrutiny are:

* `NodeViewsExtension` (the input-rule aggregation extension): its
  `onInitialize` hook returns a `forEachExtension` callback that harvests
  input rules from every visited extension, subject to a three-part skip
  check, and an `afterExtensionLoop` callback that registers a single
  aggregated plugin via `addPlugins`.
* the WYSIWYG `MenuBar` component, which renders one `MenuItem` per entry
  of a static menu-item list, deriving the button state and disabled flag
  from the per-command `isActive`/`isEnabled` predicates.

The Manager and `ExtensionFactory` themselves are not part of the sources;
where a claim depends on them (visit ordering, duplicate-name validation)
the corresponding definitions are modelled from the spec and say so in
their doc comments.
-/

/-- An input rule.  The editing engine's `InputRule` is an opaque external
value that the aggregation code only collects and passes through, so it is
modelled by an identifier. -/
structure InputRule where
  id : Nat
deriving DecidableEq, Repr

/-- The `ExcludeOptions` interface: a map of optional capability flags.
The sources declare a single optional member `inputRules?: boolean`, so the
field is an `Option Bool` (absent, `false`, or `true`). -/
structure ExcludeOptions where
  inputRules : Option Bool
deriving DecidableEq, Repr

/-- An extension's `settings`.  The skip check reads `settings.exclude`
without an optional guard; to let that be analysed the field is an
`Option`, `none` standing for an undefined `exclude` object (reading a
member off it would be a runtime fault in the source language). -/
structure ExtensionSettings where
  exclude : Option ExcludeOptions
deriving DecidableEq, Repr

/-- The per-extension method record (`extension.parameter` in the source).
The `createNodeViews` hook is optional; when present it is modelled by the
list of input rules it returns for the parameter object that `getParameter`
supplies during harvesting (the hook is called exactly once per harvest,
with that fixed argument). -/
structure ExtensionParameterMethods where
  createNodeViews : Option (List InputRule)
deriving DecidableEq, Repr

/-- Numeric extension priorities; per the spec a lower value runs first. -/
def ExtensionPriority.Default : Nat := 50

/-- The `Low` priority used by `NodeViewsExtension` (`defaultPriority`). -/
def ExtensionPriority.Low : Nat := 100

/-- An extension as the aggregation code observes it: a name, a priority,
its merged `settings`, and its method record. -/
structure Extension where
  name : String
  priority : Nat
  settings : ExtensionSettings
  parameter : ExtensionParameterMethods
deriving DecidableEq, Repr

/-- Manager-wide settings.  `managerSettings.exclude` is read through an
optional chain (`?.`) in the source, so the field is an `Option`. -/
structure ManagerSettings where
  exclude : Option ExcludeOptions
deriving DecidableEq, Repr

/-- A registered editor plugin.  The only constructor used by the
aggregator wraps a rule list, mirroring `inputRules({ rules })`. -/
inductive Plugin where
  | inputRules (rules : List InputRule)
deriving DecidableEq, Repr

/-- Truthiness of `managerSettings.exclude?.inputRules`: truthy
exactly when `exclude` is defined and its `inputRules` member is `true`. -/
def managerExcluded (ms : ManagerSettings) : Bool :=
  (ms.exclude.bind fun ex => ex.inputRules).getD false

/-- Truthiness of `!extension.parameter.createNodeViews`: the hook is missing. -/
def hookMissing (e : Extension) : Bool :=
  e.parameter.createNodeViews.isNone

/-- Truthiness of `exclude.inputRules` on a defined `exclude` object. -/
def settingsExcluded (ex : ExcludeOptions) : Bool :=
  ex.inputRules.getD false

/-- The skip check at the head of the `forEachExtension` callback:

```
managerSettings.exclude?.inputRules ||
  !extension.parameter.createNodeViews ||
  extension.settings.exclude.inputRules
```

Disjunction is short-circuiting, so `extension.settings.exclude` is only
read when the first two tests are falsy; if it is undefined there the read
faults, which the model reports as `none`. -/
def skipCheck (ms : ManagerSettings) (e : Extension) : Option Bool :=
  if managerExcluded ms then some true
  else if hookMissing e then some true
  else e.settings.exclude.map settingsExcluded

/-- One invocation of the `forEachExtension` callback on a visited
extension: either the skip check faults (`none`), or the visit is skipped
(accumulator returned unchanged), or the rules returned by the visited
extension's `createNodeViews` are pushed onto the accumulator. -/
def visitExtension (ms : ManagerSettings) (rules : List InputRule) (e : Extension) :
    Option (List InputRule) :=
  match skipCheck ms e with
  | none => none
  | some true => some rules
  | some false => some (rules ++ e.parameter.createNodeViews.getD [])

/-- The harvesting loop from a given accumulator: `forEachExtension` is run
on each visited extension in order, threading the `rules` accumulator. -/
def harvestFrom (ms : ManagerSettings) (rules : List InputRule) :
    List Extension → Option (List InputRule)
  | [] => some rules
  | e :: rest =>
    match visitExtension ms rules e with
    | none => none
    | some rules2 => harvestFrom ms rules2 rest

/-- The full harvesting loop, starting from the empty `rules` list declared
at the top of `onInitialize`. -/
def harvest (ms : ManagerSettings) (visited : List Extension) : Option (List InputRule) :=
  harvestFrom ms [] visited

/-- The `addPlugins` callback: appends to the shared ordered plugin list. -/
def addPlugins (plugins : List Plugin) (p : Plugin) : List Plugin :=
  plugins ++ [p]

/-- The aggregator's whole `onInitialize` run: the `forEachExtension` loop
over the visited extensions followed by `afterExtensionLoop`, which wraps
the accumulated rules into one plugin and registers it via `addPlugins`.
Returns the final rule list and the resulting plugin list, or `none` when
a visit faulted. -/
def runInitialize (ms : ManagerSettings) (visited : List Extension)
    (plugins : List Plugin) : Option (List InputRule × List Plugin) :=
  match harvest ms visited with
  | none => none
  | some rules => some (rules, addPlugins plugins (Plugin.inputRules rules))

/-- The `NodeViewsExtension` descriptor itself, as a visitable extension:
name `inputRules`, `defaultPriority` Low, and no `createNodeViews` hook of
its own (the descriptor in the source declares none).  Its own `exclude`
settings are left undefined; the hook-presence test skips it before they
would be read. -/
def NodeViewsExtension : Extension :=
  { name := "inputRules"
    priority := ExtensionPriority.Low
    settings := { exclude := none }
    parameter := { createNodeViews := none } }

/-- Holds exactly when the skip check passes the extension through (no
fault and not skipped), i.e. when its contribution is harvested. -/
def notSkipped (ms : ManagerSettings) (e : Extension) : Bool :=
  match skipCheck ms e with
  | some false => true
  | _ => false

/-- Spec-side description of the harvested rule sequence, written from the
spec's words for comparison with `harvest`: the concatenation, in visit
order, of each non-skipped extension's `createNodeViews` result, each
extension's rules kept contiguous and in its own order. -/
def specContributions (ms : ManagerSettings) : List Extension → List InputRule
  | [] => []
  | e :: rest =>
    (if notSkipped ms e then e.parameter.createNodeViews.getD [] else [])
      ++ specContributions ms rest

/-- What a visited extension contributes to the aggregator, observationally:
its (possibly undefined) `exclude` settings and its (possibly missing)
`createNodeViews` result.  The skip check and the harvest read nothing
else of the extension. -/
def extensionView (e : Extension) : Option ExcludeOptions × Option (List InputRule) :=
  (e.settings.exclude, e.parameter.createNodeViews)

/-- Annotates each registered extension with its registration index,
starting from a given index. -/
def withIndices (i : Nat) : List Extension → List (Nat × Extension)
  | [] => []
  | e :: rest => (i, e) :: withIndices (i + 1) rest

/-- The comparison the Manager sorts by: priority ascending. -/
def priorityLe (a b : Nat × Extension) : Prop :=
  a.2.priority ≤ b.2.priority

instance : DecidableRel priorityLe := fun a b =>
  inferInstanceAs (Decidable (a.2.priority ≤ b.2.priority))

/-- Modelled from the spec: the Manager (its code is not under `src/`; only
its consumer `NodeViewsExtension` is) computes a stable sort order over the
registered extensions by priority ascending, ties broken by registration
index ascending.  Registration indices are attached and a stable insertion
sort by priority alone is performed; stability is what makes ties fall back
to registration order. -/
def visitOrder (exts : List Extension) : List (Nat × Extension) :=
  List.insertionSort priorityLe (withIndices 0 exts)

/-- Modelled from the spec: the Manager drives `forEachExtension` over the
same computed sorted order for every requesting extension; the requester
does not influence the order. -/
def forEachExtensionOrder (_requester : Extension) (exts : List Extension) :
    List (Nat × Extension) :=
  visitOrder exts

/-- The ordering the claim describes: priority ascending, ties broken by
registration index ascending. -/
def priorityIndexLe (a b : Nat × Extension) : Prop :=
  a.2.priority < b.2.priority ∨ (a.2.priority = b.2.priority ∧ a.1 ≤ b.1)

/-- The configuration-time error taxonomy entry for duplicate names. -/
inductive ConfigurationError where
  | duplicateName (name : String)
deriving DecidableEq, Repr

/-- First name that occurs again later in the list, if any. -/
def findDuplicate : List String → Option String
  | [] => none
  | n :: rest => if n ∈ rest then some n else findDuplicate rest

/-- Modelled from the spec: Manager construction (not under `src/`)
validates that no two registered extensions share a `name`, failing with a
`ConfigurationError` at registration time; lifecycle hooks are only run by
`runInitialize` on a successfully constructed manager, so the error is
raised before any hook runs. -/
def createManager (exts : List Extension) : Except ConfigurationError (List Extension) :=
  match findDuplicate (exts.map Extension.name) with
  | some n => Except.error (ConfigurationError.duplicateName n)
  | none => Except.ok exts

/-! ### WYSIWYG menu bar -/

/-- Command attributes passed to `isActive` (e.g. `{ level: 1 }`). -/
def Attrs : Type := List (String × Nat)
deriving instance DecidableEq, Repr for Attrs

/-- A command's capability record as the menu uses it: `isActive(attrs)`
and `isEnabled()`.  These are live predicates over editor state; for a
fixed state `isEnabled()` is a plain boolean. -/
structure MenuAction where
  isActive : Option Attrs → Bool
  isEnabled : Bool

/-- The `ButtonState` union from the WYSIWYG types. -/
inductive ButtonState where
  | default
  | inverse
  | activeDefault
  | activeInverse
deriving DecidableEq, Repr

/-- The helper `getButtonState` from the menu component (the second argument defaults
to `false` at the call sites that omit it):

```
active ? (inverse ? 'active-inverse' : 'active-default')
       : inverse ? 'inverse' : 'default'
``` -/
def getButtonState (active : Bool) (inverse : Bool) : ButtonState :=
  if active then (if inverse then ButtonState.activeInverse else ButtonState.activeDefault)
  else if inverse then ButtonState.inverse else ButtonState.default

/-- The static `menuItems` list: action name and optional attrs (the icon
and sub-text do not affect state or disabling and are omitted). -/
def menuItems : List (String × Option Attrs) :=
  [("bold", none), ("italic", none), ("underline", none), ("strike", none),
   ("toggleHeading", some [("level", 1)]), ("toggleHeading", some [("level", 2)]),
   ("toggleHeading", some [("level", 3)]),
   ("undo", none), ("redo", none), ("toggleBulletList", none),
   ("toggleOrderedList", none), ("blockquote", none), ("toggleCodeBlock", none),
   ("horizontalRule", none)]

/-- The state-relevant props of a rendered `MenuItem`. -/
structure RenderedMenuItem where
  state : ButtonState
  disabled : Bool
deriving DecidableEq, Repr

/-- The body of the `menuItems.map` in `MenuBar`: one `MenuItem` per entry,
with `state := getButtonState(actions[name].isActive(attrs), inverse)` and
`disabled := !actions[name].isEnabled()`. -/
def renderMenuItem (actions : String → MenuAction) (inv : Bool)
    (item : String × Option Attrs) : RenderedMenuItem :=
  { state := getButtonState ((actions item.1).isActive item.2) inv
    disabled := !(actions item.1).isEnabled }

/-- The `MenuBar` render: the mapped `menuItems` followed by the trailing
link `MenuItem`, which follows the same pattern for `updateLink`. -/
def renderMenuBar (actions : String → MenuAction) (inv : Bool) : List RenderedMenuItem :=
  menuItems.map (renderMenuItem actions inv)
    ++ [{ state := getButtonState ((actions "updateLink").isActive none) inv
          disabled := !(actions "updateLink").isEnabled }]

/-! ### Concrete sample values -/

/-- Manager settings with no `exclude` map. -/
def defaultManagerSettings : ManagerSettings := { exclude := none }

/-- Manager settings with `exclude.inputRules = true`. -/
def excludingManagerSettings : ManagerSettings :=
  { exclude := some { inputRules := some true } }

/-- A sample bold extension contributing two input rules. -/
def boldExt : Extension :=
  { name := "bold"
    priority := ExtensionPriority.Default
    settings := { exclude := some { inputRules := none } }
    parameter := { createNodeViews := some [⟨1⟩, ⟨2⟩] } }

/-- A sample heading extension contributing one input rule. -/
def headingExt : Extension :=
  { name := "heading"
    priority := ExtensionPriority.Default
    settings := { exclude := some { inputRules := none } }
    parameter := { createNodeViews := some [⟨3⟩] } }

/-- A copy of `boldExt` under another name: observationally identical to
the harvest, which never reads the name. -/
def boldCopyExt : Extension :=
  { boldExt with name := "bold-copy" }

/-- A sample action table: every command active, none enabled. -/
def sampleActions : String → MenuAction :=
  fun _ => { isActive := fun _ => true, isEnabled := false }

/-! ### Helper lemmas -/

/-- The flag `settingsExcluded` is truthy exactly on a literal `true` flag. -/
theorem settingsExcluded_eq_true_iff (ex : ExcludeOptions) :
    settingsExcluded ex = true ↔ ex.inputRules = some true := by
  cases hx : ex.inputRules with
  | none => simp [settingsExcluded, hx]
  | some b => cases b <;> simp [settingsExcluded, hx]

/-- A defined `exclude` object means the skip check cannot fault. -/
theorem skipCheck_isSome (ms : ManagerSettings) (e : Extension)
    (h : e.settings.exclude.isSome = true) : (skipCheck ms e).isSome = true := by
  unfold skipCheck
  cases hm : managerExcluded ms <;> cases hh : hookMissing e <;>
    cases hx : e.settings.exclude <;> simp_all

/-- Under a manager-wide `exclude.inputRules = true`, every visit skips and
the accumulator passes through unchanged. -/
theorem harvestFrom_manager_excluded (ms : ManagerSettings)
    (h : managerExcluded ms = true) (acc : List InputRule) (visited : List Extension) :
    harvestFrom ms acc visited = some acc := by
  induction visited with
  | nil => rfl
  | cons e rest ih => simpa [harvestFrom, visitExtension, skipCheck, h] using ih

/-! ### Claims -/

/-- C1: a visited extension's input-rule contribution is skipped iff the
manager-wide exclude map disables `inputRules`, or the extension has no
`createNodeViews` hook, or its own `settings.exclude.inputRules` is `true`;
when none of the three holds, the rules its `createNodeViews` returns are
appended to the accumulator. -/
theorem visit_skip_iff (ms : ManagerSettings) (e : Extension) (ex : ExcludeOptions)
    (rules : List InputRule) (h : e.settings.exclude = some ex) :
    (skipCheck ms e = some true ↔
      (managerExcluded ms = true ∨ hookMissing e = true ∨ ex.inputRules = some true))
    ∧ (skipCheck ms e = some true → visitExtension ms rules e = some rules)
    ∧ (skipCheck ms e = some false →
        visitExtension ms rules e = some (rules ++ e.parameter.createNodeViews.getD [])) := by
  refine ⟨?_, ?_, ?_⟩
  · unfold skipCheck
    cases hm : managerExcluded ms <;> cases hh : hookMissing e <;>
      simp [h, hm, hh, settingsExcluded_eq_true_iff]
  · intro hs
    simp [visitExtension, hs]
  · intro hs
    simp [visitExtension, hs]

/-- Witness for C1 at `boldExt` under empty manager settings. -/
theorem visit_skip_iff_witness :
    boldExt.settings.exclude = some { inputRules := none } ∧
    ((skipCheck defaultManagerSettings boldExt = some true ↔
      (managerExcluded defaultManagerSettings = true ∨ hookMissing boldExt = true ∨
        ({ inputRules := none } : ExcludeOptions).inputRules = some true))
    ∧ (skipCheck defaultManagerSettings boldExt = some true →
        visitExtension defaultManagerSettings [] boldExt = some [])
    ∧ (skipCheck defaultManagerSettings boldExt = some false →
        visitExtension defaultManagerSettings [] boldExt =
          some ([] ++ boldExt.parameter.createNodeViews.getD []))) :=
  ⟨rfl, visit_skip_iff defaultManagerSettings boldExt { inputRules := none } [] rfl⟩

/-- C2: with manager-wide `exclude.inputRules = true`, no extension's rules
are harvested — the accumulated list is empty for every visited sequence —
and `afterExtensionLoop` still registers the aggregation plugin, carrying
an empty rule list. -/
theorem manager_exclude_empty (ms : ManagerSettings) (visited : List Extension)
    (plugins : List Plugin) (h : managerExcluded ms = true) :
    harvest ms visited = some [] ∧
    runInitialize ms visited plugins =
      some ([], addPlugins plugins (Plugin.inputRules [])) := by
  have hh : harvest ms visited = some [] :=
    harvestFrom_manager_excluded ms h [] visited
  exact ⟨hh, by simp [runInitialize, hh]⟩

/-- Witness for C2 on a two-extension sequence. -/
theorem manager_exclude_empty_witness :
    managerExcluded excludingManagerSettings = true ∧
    (harvest excludingManagerSettings [boldExt, headingExt] = some [] ∧
      runInitialize excludingManagerSettings [boldExt, headingExt] [] =
        some ([], addPlugins [] (Plugin.inputRules []))) :=
  ⟨by decide, manager_exclude_empty excludingManagerSettings [boldExt, headingExt] [] (by decide)⟩

/-- C3: whenever the harvesting loop completes with accumulated `rules`,
`afterExtensionLoop` calls `addPlugins` exactly once, appending exactly one
plugin that wraps the entire accumulated sequence — never one plugin per
contributing extension and never zero. -/
theorem afterLoop_single_plugin (ms : ManagerSettings) (visited : List Extension)
    (plugins : List Plugin) (rules : List InputRule)
    (h : harvest ms visited = some rules) :
    runInitialize ms visited plugins = some (rules, plugins ++ [Plugin.inputRules rules]) ∧
    (plugins ++ [Plugin.inputRules rules]).length = plugins.length + 1 := by
  exact ⟨by simp [runInitialize, h, addPlugins], by simp⟩

/-- Witness for C3: `boldExt` alone contributes its two rules and exactly
one plugin is registered. -/
theorem afterLoop_single_plugin_witness :
    harvest defaultManagerSettings [boldExt] = some [⟨1⟩, ⟨2⟩] ∧
    (runInitialize defaultManagerSettings [boldExt] [] =
      some ([⟨1⟩, ⟨2⟩], [] ++ [Plugin.inputRules [⟨1⟩, ⟨2⟩]]) ∧
    ([] ++ [Plugin.inputRules [⟨1⟩, ⟨2⟩]]).length = ([] : List Plugin).length + 1) :=
  ⟨by decide, afterLoop_single_plugin defaultManagerSettings [boldExt] [] [⟨1⟩, ⟨2⟩] (by decide)⟩

/-- When every visited extension has a defined `exclude` object, the
harvesting loop never faults and computes, from any accumulator, the
accumulator followed by the spec-side concatenation of contributions. -/
theorem harvestFrom_spec (ms : ManagerSettings) :
    ∀ visited : List Extension, (∀ e ∈ visited, e.settings.exclude.isSome = true) →
      ∀ acc, harvestFrom ms acc visited = some (acc ++ specContributions ms visited) := by
  intro visited
  induction visited with
  | nil => intro _ acc; simp [harvestFrom, specContributions]
  | cons e rest ih =>
    intro h acc
    have he : e.settings.exclude.isSome = true := h e (List.mem_cons_self e rest)
    have hrest : ∀ x ∈ rest, x.settings.exclude.isSome = true :=
      fun x hx => h x (List.mem_cons_of_mem e hx)
    cases hs : skipCheck ms e with
    | none =>
      have hsome := skipCheck_isSome ms e he
      rw [hs] at hsome
      simp at hsome
    | some b =>
      cases b with
      | true =>
        have hns : notSkipped ms e = false := by simp [notSkipped, hs]
        simp [harvestFrom, visitExtension, hs, specContributions, hns, ih hrest acc]
      | false =>
        have hns : notSkipped ms e = true := by simp [notSkipped, hs]
        simp [harvestFrom, visitExtension, hs, specContributions, hns,
          ih hrest (acc ++ e.parameter.createNodeViews.getD [])]

/-- C4: when no visit faults, the harvested rule sequence equals the
concatenation, in visit order, of each non-skipped extension's
`createNodeViews` result, each extension's rules contiguous and in the
order that extension returned them. -/
theorem harvest_eq_concat (ms : ManagerSettings) (visited : List Extension)
    (h : ∀ e ∈ visited, e.settings.exclude.isSome = true) :
    harvest ms visited = some (specContributions ms visited) := by
  simpa [harvest] using harvestFrom_spec ms visited h []

/-- Witness for C4: visiting Bold then Heading yields Bold's two rules
followed by Heading's rule, in that order. -/
theorem harvest_eq_concat_witness :
    (∀ e ∈ [boldExt, headingExt], e.settings.exclude.isSome = true) ∧
    harvest defaultManagerSettings [boldExt, headingExt] =
      some (specContributions defaultManagerSettings [boldExt, headingExt]) ∧
    specContributions defaultManagerSettings [boldExt, headingExt] = [⟨1⟩, ⟨2⟩, ⟨3⟩] :=
  ⟨by decide, harvest_eq_concat defaultManagerSettings [boldExt, headingExt] (by decide),
    by decide⟩

/-- Two extensions that agree observationally (same `exclude` settings,
same `createNodeViews` result) are treated identically by a visit. -/
theorem visitExtension_congr (ms : ManagerSettings) (acc : List InputRule)
    (e1 e2 : Extension) (h : extensionView e1 = extensionView e2) :
    visitExtension ms acc e1 = visitExtension ms acc e2 := by
  have h1 : e1.settings.exclude = e2.settings.exclude := congrArg Prod.fst h
  have h2 : e1.parameter.createNodeViews = e2.parameter.createNodeViews :=
    congrArg Prod.snd h
  simp [visitExtension, skipCheck, hookMissing, h1, h2]

/-- The harvesting loop is a function of the visited extensions'
observable views alone. -/
theorem harvestFrom_congr (ms : ManagerSettings) :
    ∀ v1 v2 : List Extension, v1.map extensionView = v2.map extensionView →
      ∀ acc, harvestFrom ms acc v1 = harvestFrom ms acc v2 := by
  intro v1
  induction v1 with
  | nil =>
    intro v2 h acc
    cases v2 with
    | nil => rfl
    | cons f rest2 => simp at h
  | cons e rest ih =>
    intro v2 h acc
    cases v2 with
    | nil => simp at h
    | cons f rest2 =>
      obtain ⟨h1, h2⟩ : extensionView e = extensionView f ∧
          rest.map extensionView = rest2.map extensionView := by simpa using h
      rw [harvestFrom, harvestFrom, visitExtension_congr ms acc e f h1]
      cases visitExtension ms acc f with
      | none => rfl
      | some acc2 => exact ih rest2 h2 acc2

/-- C6: the aggregator's initialization (harvest loop followed by
`afterExtensionLoop`) is a deterministic function of its inputs: two runs
over the same manager settings, starting plugin list and observationally
identical visited sequences produce the same rule sequence and the same
registered plugin list. -/
theorem init_deterministic (ms : ManagerSettings) (v1 v2 : List Extension)
    (plugins : List Plugin) (h : v1.map extensionView = v2.map extensionView) :
    runInitialize ms v1 plugins = runInitialize ms v2 plugins := by
  unfold runInitialize harvest
  rw [harvestFrom_congr ms v1 v2 h []]

/-- Witness for C6: a second run over an observationally identical copy of
`boldExt` produces identical output. -/
theorem init_deterministic_witness :
    [boldExt].map extensionView = [boldCopyExt].map extensionView ∧
    runInitialize defaultManagerSettings [boldExt] [] =
      runInitialize defaultManagerSettings [boldCopyExt] [] :=
  ⟨by decide, init_deterministic defaultManagerSettings [boldExt] [boldCopyExt] [] (by decide)⟩

/-- A visit that always returns the accumulator unchanged can be dropped
from the middle of the visited sequence. -/
theorem harvestFrom_middle_skip (ms : ManagerSettings) (e : Extension)
    (hv : ∀ acc, visitExtension ms acc e = some acc) :
    ∀ (pre : List Extension) (acc : List InputRule) (post : List Extension),
      harvestFrom ms acc (pre ++ e :: post) = harvestFrom ms acc (pre ++ post) := by
  intro pre
  induction pre with
  | nil =>
    intro acc post
    simp [harvestFrom, hv acc]
  | cons p rest ih =>
    intro acc post
    cases hvp : visitExtension ms acc p with
    | none => simp [harvestFrom, hvp]
    | some acc2 =>
      simp only [List.cons_append, harvestFrom, hvp]
      exact ih acc2 post

/-- C8: the loop visits the aggregator itself along with all others; the
aggregator declares no `createNodeViews` hook, so the hook-presence check
skips it and its visit adds no rules — self-inclusion is harmless, and the
harvest over any sequence containing it equals the harvest without it. -/
theorem self_visit_harmless (ms : ManagerSettings) (acc : List InputRule)
    (pre post : List Extension) :
    NodeViewsExtension.parameter.createNodeViews = none ∧
    visitExtension ms acc NodeViewsExtension = some acc ∧
    harvest ms (pre ++ NodeViewsExtension :: post) = harvest ms (pre ++ post) := by
  have hv : ∀ (a : List InputRule), visitExtension ms a NodeViewsExtension = some a := by
    intro a
    unfold visitExtension skipCheck
    cases hm : managerExcluded ms <;> simp [hookMissing, NodeViewsExtension, hm]
  exact ⟨rfl, hv acc, harvestFrom_middle_skip ms NodeViewsExtension hv pre [] post⟩

/-- C10: the skip check reads the manager-wide exclude map through an
optional guard but the visited extension's `settings.exclude` unguarded;
under the precondition that every visited extension carries a defined
`exclude` object the whole harvest never faults, for arbitrary manager
settings (in particular with no manager-wide exclude map at all). -/
theorem skip_check_safe (ms : ManagerSettings) (visited : List Extension)
    (h : ∀ e ∈ visited, e.settings.exclude.isSome = true) :
    (harvest ms visited).isSome = true := by
  rw [harvest, harvestFrom_spec ms visited h []]
  rfl

/-- Witness for C10 on Bold and Heading with no manager exclude map. -/
theorem skip_check_safe_witness :
    (∀ e ∈ [headingExt, boldExt], e.settings.exclude.isSome = true) ∧
    (harvest defaultManagerSettings [headingExt, boldExt]).isSome = true :=
  ⟨by decide, skip_check_safe defaultManagerSettings [headingExt, boldExt] (by decide)⟩

/-- Every annotated index is at least the starting index. -/
theorem withIndices_mem_ge :
    ∀ (l : List Extension) (i : Nat) (b : Nat × Extension), b ∈ withIndices i l → i ≤ b.1 := by
  intro l
  induction l with
  | nil =>
    intro i b hb
    simp [withIndices] at hb
  | cons e rest ih =>
    intro i b hb
    rcases List.mem_cons.mp hb with rfl | hb2
    · exact Nat.le_refl i
    · exact Nat.le_of_succ_le (ih (i + 1) b hb2)

/-- Registration indices are strictly increasing along the annotated list. -/
theorem withIndices_pairwise (l : List Extension) :
    ∀ i : Nat, List.Pairwise (fun a b : Nat × Extension => a.1 < b.1) (withIndices i l) := by
  induction l with
  | nil => intro i; simp [withIndices]
  | cons e rest ih =>
    intro i
    refine List.pairwise_cons.mpr ⟨?_, ih (i + 1)⟩
    intro b hb
    exact Nat.lt_of_succ_le (withIndices_mem_ge rest (i + 1) b hb)

/-- Inserting an element whose index is below every index in a list sorted
by (priority, index) keeps the list sorted: insertion by priority alone
places it before every entry of equal priority, which all carry larger
indices. -/
theorem orderedInsert_sorted_lex (a : Nat × Extension) :
    ∀ l : List (Nat × Extension), List.Sorted priorityIndexLe l →
      (∀ b ∈ l, a.1 < b.1) →
      List.Sorted priorityIndexLe (List.orderedInsert priorityLe a l) := by
  intro l
  induction l with
  | nil =>
    intro _ _
    simp [List.orderedInsert]
  | cons b l ih =>
    intro hs hidx
    have hbl := List.sorted_cons.mp hs
    rw [List.orderedInsert]
    by_cases hab : priorityLe a b
    · rw [if_pos hab]
      have hab2 : a.2.priority ≤ b.2.priority := hab
      refine List.sorted_cons.mpr ⟨?_, hs⟩
      intro c hc
      rcases List.mem_cons.mp hc with rfl | hcl
      · rcases Nat.lt_or_ge a.2.priority c.2.priority with h | h
        · exact Or.inl h
        · exact Or.inr ⟨Nat.le_antisymm hab2 h,
            Nat.le_of_lt (hidx c (List.mem_cons_self c l))⟩
      · have hbc := hbl.1 c hcl
        have hac : a.1 < c.1 := hidx c (List.mem_cons_of_mem b hcl)
        rcases hbc with h | h
        · exact Or.inl (Nat.lt_of_le_of_lt hab2 h)
        · rcases Nat.lt_or_ge a.2.priority c.2.priority with h2 | h2
          · exact Or.inl h2
          · exact Or.inr ⟨Nat.le_antisymm (h.1 ▸ hab2) h2, Nat.le_of_lt hac⟩
    · rw [if_neg hab]
      have hba : b.2.priority < a.2.priority := Nat.lt_of_not_le hab
      refine List.sorted_cons.mpr
        ⟨?_, ih hbl.2 (fun c hc => hidx c (List.mem_cons_of_mem b hc))⟩
      intro c hc
      rcases (List.mem_orderedInsert priorityLe).mp hc with rfl | hcl
      · exact Or.inl hba
      · exact hbl.1 c hcl

/-- Insertion sort by priority over a list with strictly increasing
indices is sorted by (priority, index): the stability property. -/
theorem insertionSort_lex_sorted :
    ∀ l : List (Nat × Extension),
      List.Pairwise (fun a b : Nat × Extension => a.1 < b.1) l →
      List.Sorted priorityIndexLe (List.insertionSort priorityLe l) := by
  intro l
  induction l with
  | nil => intro _; exact List.sorted_nil
  | cons a l ih =>
    intro hp
    have hpl := List.pairwise_cons.mp hp
    rw [List.insertionSort]
    refine orderedInsert_sorted_lex a _ (ih hpl.2) ?_
    intro b hb
    exact hpl.1 b ((List.perm_insertionSort priorityLe l).subset hb)

/-- C5: the Manager's visit order is the stable sort of the registered
extensions by priority ascending, ties broken by registration index
ascending — the output is sorted under the (priority, index) lexicographic
order and is a permutation of the indexed registration list — and the same
order is used for every requesting extension. -/
theorem visit_order_spec (exts : List Extension) (requester : Extension) :
    List.Sorted priorityIndexLe (visitOrder exts) ∧
    List.Perm (visitOrder exts) (withIndices 0 exts) ∧
    forEachExtensionOrder requester exts = visitOrder exts :=
  ⟨insertionSort_lex_sorted (withIndices 0 exts) (withIndices_pairwise exts 0),
    List.perm_insertionSort priorityLe (withIndices 0 exts), rfl⟩

/-- The search `findDuplicate` returns nothing exactly on duplicate-free lists. -/
theorem findDuplicate_eq_none_iff :
    ∀ l : List String, findDuplicate l = none ↔ l.Nodup := by
  intro l
  induction l with
  | nil => simp [findDuplicate]
  | cons n rest ih =>
    by_cases hn : n ∈ rest
    · simp [findDuplicate, hn]
    · simp [findDuplicate, hn, ih]

/-- C7: registering two extensions with the same name makes manager
construction fail with a `ConfigurationError`; construction performs only
this validation and runs no lifecycle hook. -/
theorem duplicate_name_error (exts : List Extension)
    (h : ¬ (exts.map Extension.name).Nodup) :
    ∃ n, createManager exts = Except.error (ConfigurationError.duplicateName n) := by
  cases hd : findDuplicate (exts.map Extension.name) with
  | none => exact absurd ((findDuplicate_eq_none_iff _).mp hd) h
  | some n => exact ⟨n, by simp [createManager, hd]⟩

/-- Witness for C7: registering `boldExt` twice fails. -/
theorem duplicate_name_error_witness :
    ¬ ([boldExt, boldExt].map Extension.name).Nodup ∧
    ∃ n, createManager [boldExt, boldExt] =
      Except.error (ConfigurationError.duplicateName n) :=
  ⟨by decide, duplicate_name_error [boldExt, boldExt] (by decide)⟩

/-- The button state is one of the two active variants exactly when the
`active` input is `true`, whatever the `inverse` flag. -/
theorem getButtonState_active_iff (a inv : Bool) :
    (getButtonState a inv = ButtonState.activeDefault ∨
      getButtonState a inv = ButtonState.activeInverse) ↔ a = true := by
  cases a <;> cases inv <;> decide

/-- C9: each entry of the menu-item list renders to a `MenuItem` whose
`disabled` flag is the negation of the action's `isEnabled()` and whose
state is an active variant exactly when the action's `isActive(attrs)`
holds for the entry's attrs. -/
theorem menu_reflects_commands (actions : String → MenuAction) (inv : Bool)
    (i : Nat) (item : String × Option Attrs) (h : menuItems[i]? = some item) :
    (renderMenuBar actions inv)[i]? = some (renderMenuItem actions inv item) ∧
    (renderMenuItem actions inv item).disabled = !(actions item.1).isEnabled ∧
    (((renderMenuItem actions inv item).state = ButtonState.activeDefault ∨
      (renderMenuItem actions inv item).state = ButtonState.activeInverse) ↔
      (actions item.1).isActive item.2 = true) := by
  refine ⟨?_, rfl, getButtonState_active_iff _ _⟩
  have hi : i < (menuItems.map (renderMenuItem actions inv)).length := by
    rcases List.getElem?_eq_some.mp h with ⟨hlen, _⟩
    simpa using hlen
  rw [renderMenuBar, List.getElem?_append_left hi, List.getElem?_map, h]
  rfl

/-- Witness for C9 at the first menu entry (`bold`). -/
theorem menu_reflects_commands_witness :
    menuItems[0]? = some ("bold", none) ∧
    ((renderMenuBar sampleActions false)[0]? =
        some (renderMenuItem sampleActions false ("bold", none)) ∧
      (renderMenuItem sampleActions false ("bold", none)).disabled =
        !(sampleActions "bold").isEnabled ∧
      (((renderMenuItem sampleActions false ("bold", none)).state =
            ButtonState.activeDefault ∨
        (renderMenuItem sampleActions false ("bold", none)).state =
            ButtonState.activeInverse) ↔
        (sampleActions "bold").isActive none = true)) :=
  ⟨rfl, menu_reflects_commands sampleActions false 0 ("bold", none) rfl⟩

